import Mathlib

/-!
# Verification of the stay-point extraction and k-gap pipeline

A shallow embedding, in Lean 4, of the numerically relevant parts of the
GPS stay-point pipeline:

* `KGap` — the per-pair stretch functions and the `k_gap` fingerprint
  distance, plus the main loop that assembles the similarity matrix
  (from `k-gap.py`);
* `STC` — the single-pass spatio-temporal stay-point segmenter
  (from `stc.py`);
* `DB` — the canonical-representative selection used by the DBSCAN
  consolidation step (from `dbscan.py`);
* `Gen` — the time-grid flooring of consolidated records
  (from `spatiotemporal-generalization.py`).

The geodesic / great-circle distance primitive is consumed by the source
as a black box, so every definition that needs it takes an explicit
function `gd : ℚ × ℚ → ℚ × ℚ → ℚ` returning a distance in meters.
Coordinates and times are rationals: the float arithmetic of the source is
modelled exactly.
-/

/-- A degenerate distance function: every pair of points is at distance
zero.  Used to instantiate the abstract geodesic primitive on concrete
scenarios whose points coincide (a true geodesic distance of identical
points is `0`). -/
def gdZero : ℚ × ℚ → ℚ × ℚ → ℚ := fun _ _ => 0

/-- A discrete distance function: identical points are at distance `0`,
distinct points at `100000` meters.  Used to instantiate the abstract
geodesic primitive on concrete scenarios with one far-away point. -/
def gdFar : ℚ × ℚ → ℚ × ℚ → ℚ := fun p q => if p = q then 0 else 100000

namespace KGap


/-- One consolidated stay record as consumed by `k-gap.py`: `lat`/`lon`
are the DBSCAN-consolidated coordinates and `start`/`stop` bound the
time window of the record, in seconds (the `start` and `end` datetime
columns of the source; interval arithmetic on datetimes is via
`total_seconds`, so we carry seconds directly). -/
structure StayRec where
  lat : ℚ
  lon : ℚ
  start : ℚ
  stop : ℚ
deriving DecidableEq

/-- The constant `max_d` from `k-gap.py`: spatial cap, in meters. -/
def max_d : ℚ := 100

/-- The constant `max_t` from `k-gap.py`: temporal cap, in minutes (the code uses
`max_t * 60` seconds). -/
def max_t : ℚ := 60

/-- The function `spatial_stretch` from `k-gap.py`: capped normalized geodesic
distance between the coordinates of the two records. -/
def spatial_stretch (gd : ℚ × ℚ → ℚ × ℚ → ℚ) (s_i s_j : StayRec) : ℚ :=
  let dist := gd (s_i.lat, s_i.lon) (s_j.lat, s_j.lon)
  if dist ≤ max_d then dist / max_d else 1

/-- The function `temporal_stretch` from `k-gap.py`: normalized overlap of the time
windows of the two records, `1` outside `[0, max_t*60]`. -/
def temporal_stretch (s_i s_j : StayRec) : ℚ :=
  let overlap := min s_i.stop s_j.stop - max s_i.start s_j.start
  if 0 ≤ overlap ∧ overlap ≤ max_t * 60 then overlap / (max_t * 60) else 1

/-- The function `sample_stretch_effort` from `k-gap.py`. -/
def sample_stretch_effort (gd : ℚ × ℚ → ℚ × ℚ → ℚ) (s_i s_j : StayRec) : ℚ :=
  0.5 * spatial_stretch gd s_i s_j + 0.5 * temporal_stretch s_i s_j

/-- The Python `min` over a list of rationals (the source applies it to a
non-empty list comprehension; on `[]` we return a junk value `0` where
Python would raise). -/
def listMin : List ℚ → ℚ
  | [] => 0
  | x :: xs => xs.foldl min x

/-- The function `k_gap` from `k-gap.py`: for every record of `f1`, the minimum
stretch effort against all records of `f2`, summed and divided by the
length of `f1`. -/
def k_gap (gd : ℚ × ℚ → ℚ × ℚ → ℚ) (f1 f2 : List StayRec) : ℚ :=
  let sse := f1.map (fun s_i => listMin (f2.map (fun s_j => sample_stretch_effort gd s_i s_j)))
  sse.sum / (f1.length : ℚ)

/-- Spec-side formulation of the inner minimum of `k_gap`: the minimum
of `g` over a finite set of records (`0` on the empty set, which the
spec never queries). -/
def finsetMin (s : Finset StayRec) (g : StayRec → ℚ) : ℚ :=
  if h : s.Nonempty then s.inf' h g else 0

/-- The pairing `itertools.combinations(l, 2)` as used by the main loop of
`k-gap.py`: every unordered pair of list elements, first component
occurring earlier in the list. -/
def combos {S : Type} : List S → List (S × S)
  | [] => []
  | x :: xs => xs.map (fun y => (x, y)) ++ combos xs

/-- The per-pair value of the main loop of `k-gap.py`:
`k_gap(f_a,f_b) if f_a.shape[0] < f_b.shape[0] else k_gap(f_b,f_a)`. -/
def gapOf (gd : ℚ × ℚ → ℚ × ℚ → ℚ) (fa fb : List StayRec) : ℚ :=
  if fa.length < fb.length then k_gap gd fa fb else k_gap gd fb fa

/-- One cell assignment `df.loc[a][b] = v` of the main loop. -/
def setCell {S : Type} [DecidableEq S] (M : S → S → Option ℚ) (a b : S) (v : ℚ) :
    S → S → Option ℚ :=
  fun x y => if x = a ∧ y = b then some v else M x y

/-- The paired assignment of the main loop: `df.loc[a][b] = v` followed
by `df.loc[b][a] = v`. -/
def writePair {S : Type} [DecidableEq S] (M : S → S → Option ℚ) (a b : S) (v : ℚ) :
    S → S → Option ℚ :=
  setCell (setCell M a b v) b a v

/-- The matrix-filling loop of `k-gap.py`: for each subject pair, write
the single computed gap value into both cells. -/
def buildMatrix {S : Type} [DecidableEq S] (gd : ℚ × ℚ → ℚ × ℚ → ℚ)
    (fp : S → List StayRec) : List (S × S) → (S → S → Option ℚ) → S → S → Option ℚ
  | [], M => M
  | p :: rest, M => buildMatrix gd fp rest (writePair M p.1 p.2 (gapOf gd (fp p.1) (fp p.2)))

/-- The full SimilarityMatrix of `k-gap.py`: an initially empty
(all-`none`) square table over the participants, filled pairwise. -/
def similarity_matrix {S : Type} [DecidableEq S] (gd : ℚ × ℚ → ℚ × ℚ → ℚ)
    (fp : S → List StayRec) (participants : List S) : S → S → Option ℚ :=
  buildMatrix gd fp (combos participants) (fun _ _ => none)

end KGap

namespace STC

/-- One row of the working representation of the segmenter (the Python
dicts with keys `loc` and `time` built from the DataFrame rows). -/
structure Entry where
  loc : ℚ × ℚ
  time : ℚ
deriving DecidableEq

/-- One emitted candidate cluster (a row of the DataFrame returned by
`create_place_clusters`). -/
structure ClusterRow where
  lat : ℚ
  lon : ℚ
  time_durations : ℚ
  start_time : ℚ
deriving DecidableEq

/-- The function `get_centroid` from `stc.py`: arithmetic mean of the member
latitudes and longitudes. -/
def get_centroid (cluster_loc : List Entry) : ℚ × ℚ :=
  ((cluster_loc.map (fun l => l.loc.1)).sum / (cluster_loc.length : ℚ),
   (cluster_loc.map (fun l => l.loc.2)).sum / (cluster_loc.length : ℚ))

/-- The function `get_centroid_lat` from `stc.py`. -/
def get_centroid_lat (cluster_loc : List Entry) : ℚ :=
  (cluster_loc.map (fun l => l.loc.1)).sum / (cluster_loc.length : ℚ)

/-- The function `get_centroid_long` from `stc.py`. -/
def get_centroid_long (cluster_loc : List Entry) : ℚ :=
  (cluster_loc.map (fun l => l.loc.2)).sum / (cluster_loc.length : ℚ)

/-- The function `dist_cluster_new_loc` from `stc.py`: geodesic distance from the
centroid of the cluster to the new location; `gd` is the abstract geodesic
primitive in meters. -/
def dist_cluster_new_loc (gd : ℚ × ℚ → ℚ × ℚ → ℚ) (cluster : List Entry)
    (new_loc : Entry) : ℚ :=
  gd (get_centroid cluster) new_loc.loc

/-- The function `time_duration` from `stc.py`: time of the last member minus
time of the first member (junk value on `[]`, which the source never queries). -/
def time_duration (cluster : List Entry) : ℚ :=
  (cluster.getLastD ⟨(0, 0), 0⟩).time - (cluster.headD ⟨(0, 0), 0⟩).time

/-- The loop state of `create_place_clusters`: the emitted clusters so
far (`final_clusters`), the in-progress buffer (`cur_cluster`) and the
one-slot pending out-of-range sample (`ploc`). -/
structure SegState where
  finals : List ClusterRow
  cur : List Entry
  ploc : Option Entry
deriving DecidableEq

/-- Finalization of `cur_cluster` into an emitted row, as written in the
emission branch of `create_place_clusters`. -/
def finalizeRow (cur : List Entry) : ClusterRow :=
  { lat := get_centroid_lat cur
    lon := get_centroid_long cur
    time_durations := time_duration cur
    start_time := (cur.headD ⟨(0, 0), 0⟩).time }

/-- One iteration of the `for index, row in data_places.drop(0).iterrows()`
loop of `create_place_clusters`. -/
def segStep (gd : ℚ × ℚ → ℚ × ℚ → ℚ) (d t : ℚ) (σ : SegState) (row : Entry) :
    SegState :=
  if dist_cluster_new_loc gd σ.cur row < d then
    { σ with cur := σ.cur ++ [row], ploc := none }
  else
    match σ.ploc with
    | some p =>
        let finals' :=
          if time_duration σ.cur > t then σ.finals ++ [finalizeRow σ.cur] else σ.finals
        if dist_cluster_new_loc gd [p] row < d then
          ⟨finals', [p, row], none⟩
        else
          ⟨finals', [p], some row⟩
    | none => { σ with ploc := some row }

/-- The whole forward pass of `create_place_clusters`, starting from the
state seeded with the first sample of the trace. -/
def segRun (gd : ℚ × ℚ → ℚ × ℚ → ℚ) (d t : ℚ) (first : Entry)
    (rest : List Entry) : SegState :=
  rest.foldl (segStep gd d t) ⟨[], [first], none⟩

/-- The function `create_place_clusters` from `stc.py`.  On an empty trace the Python
raises `IndexError` at `data_places.iloc[0]`, modelled as `none`;
otherwise the function returns the list of emitted clusters of the
forward pass — the final `cur_cluster` buffer is not flushed. -/
def create_place_clusters (gd : ℚ × ℚ → ℚ × ℚ → ℚ) (d t : ℚ)
    (data_places : List Entry) : Option (List ClusterRow) :=
  match data_places with
  | [] => none
  | first :: rest => some (segRun gd d t first rest).finals

/-- The in-range branch of the loop: each consumed sample lies within
`d` of the running centroid of the buffer built so far (Boolean so that
concrete instances evaluate by `decide`). -/
def allInRange (gd : ℚ × ℚ → ℚ × ℚ → ℚ) (d : ℚ) : List Entry → List Entry → Bool
  | _, [] => true
  | cur, s :: rest =>
      decide (dist_cluster_new_loc gd cur s < d) && allInRange gd d (cur ++ [s]) rest

end STC

namespace DB

/-- The Python `min(x :: xs, key=f)`: the first element of the list whose
key is minimal (a later element replaces the running minimum only when
its key is strictly smaller). -/
def minByKey (f : ℚ × ℚ → ℚ) (x : ℚ × ℚ) (xs : List (ℚ × ℚ)) : ℚ × ℚ :=
  xs.foldl (fun acc p => if f p < f acc then p else acc) x

/-- The `MultiPoint(cluster).centroid` of `dbscan.py`: the arithmetic
mean of the member points. -/
def centroidOf (cluster : List (ℚ × ℚ)) : ℚ × ℚ :=
  ((cluster.map Prod.fst).sum / (cluster.length : ℚ),
   (cluster.map Prod.snd).sum / (cluster.length : ℚ))

/-- The function `get_centroid` from `dbscan.py`: the member point whose
great-circle distance to the centroid of the cluster is minimal (the
Python `min(cluster, key=...)`; junk value `(0,0)` on `[]`, where Python would
raise).  `gc` is the abstract great-circle distance primitive. -/
def get_centroid (gc : ℚ × ℚ → ℚ × ℚ → ℚ) (cluster : List (ℚ × ℚ)) : ℚ × ℚ :=
  match cluster with
  | [] => (0, 0)
  | x :: xs => minByKey (fun point => gc point (centroidOf (x :: xs))) x xs

/-- The selection `coords[cluster_labels == n]` from `dbscan.py`: the member points of
the consolidation group labelled `n`. -/
def clusterOf (coords : List (ℚ × ℚ)) (labels : List ℕ) (n : ℕ) : List (ℚ × ℚ) :=
  ((coords.zip labels).filter (fun pl => pl.2 == n)).map Prod.fst

end DB

namespace Gen

/-- The flooring applied by `spatiotemporal-generalization.py` to
`start_time` and `end_time`: `x // th * th` with the Python floor
division. -/
def floorToGrid (x th : ℤ) : ℤ := x.fdiv th * th

/-- The time threshold handed to `create_place_clusters` by
`spatiotemporal-generalization.py`: `temporal_threshold * 60` seconds
(the parameter itself is in minutes). -/
def time_threshold_seconds (temporal_threshold : ℤ) : ℤ := temporal_threshold * 60

end Gen

namespace KGap

theorem foldl_min_min (a b : ℚ) (l : List ℚ) :
    l.foldl min (min a b) = min a (l.foldl min b) := by
  induction l generalizing b with
  | nil => rfl
  | cons c cs ih => rw [List.foldl_cons, List.foldl_cons, min_assoc, ih]

theorem listMin_cons (x : ℚ) (l : List ℚ) (h : l ≠ []) :
    listMin (x :: l) = min x (listMin l) := by
  cases l with
  | nil => exact absurd rfl h
  | cons y ys => simp only [listMin, List.foldl_cons]; exact foldl_min_min x y ys

theorem listMin_le (l : List ℚ) : ∀ y ∈ l, listMin l ≤ y := by
  induction l with
  | nil => intro y hy; simp at hy
  | cons x xs ih =>
    intro y hy
    cases xs with
    | nil => simp at hy; simp [listMin, hy]
    | cons z zs =>
      rw [listMin_cons x (z :: zs) (List.cons_ne_nil z zs)]
      rcases List.mem_cons.mp hy with h | h
      · exact h ▸ min_le_left _ _
      · exact le_trans (min_le_right _ _) (ih y h)

theorem listMin_mem (l : List ℚ) (h : l ≠ []) : listMin l ∈ l := by
  induction l with
  | nil => exact absurd rfl h
  | cons x xs ih =>
    cases xs with
    | nil => simp [listMin]
    | cons z zs =>
      rw [listMin_cons x (z :: zs) (List.cons_ne_nil z zs)]
      rcases min_cases x (listMin (z :: zs)) with ⟨he, _⟩ | ⟨he, _⟩
      · rw [he]; exact List.mem_cons_self x _
      · rw [he]; exact List.mem_cons_of_mem x (ih (List.cons_ne_nil z zs))

theorem listMin_map_eq_finsetMin (g : StayRec → ℚ) :
    ∀ l : List StayRec, l ≠ [] → listMin (l.map g) = finsetMin l.toFinset g := by
  intro l
  induction l with
  | nil => intro h; exact absurd rfl h
  | cons a l ih =>
    intro _
    cases l with
    | nil =>
      simp [listMin, finsetMin, Finset.singleton_nonempty]
    | cons b l' =>
      have hne : (b :: l') ≠ ([] : List StayRec) := List.cons_ne_nil b l'
      have hmapne : (b :: l').map g ≠ [] := by simp
      have htne : (b :: l').toFinset.Nonempty :=
        ⟨b, List.mem_toFinset.mpr (List.mem_cons_self b l')⟩
      rw [List.map_cons, listMin_cons (g a) _ hmapne, ih hne]
      have hins : (a :: b :: l').toFinset = insert a (b :: l').toFinset := by
        simp [List.toFinset_cons]
      rw [finsetMin, finsetMin, dif_pos htne, hins]
      have hins_ne : (insert a (b :: l').toFinset).Nonempty :=
        Finset.insert_nonempty a _
      rw [dif_pos hins_ne]
      rw [Finset.inf'_insert (H := htne)]

theorem spatial_stretch_nonneg (gd : ℚ × ℚ → ℚ × ℚ → ℚ)
    (hgd : ∀ p q, 0 ≤ gd p q) (s t : StayRec) : 0 ≤ spatial_stretch gd s t := by
  unfold spatial_stretch
  dsimp only
  split_ifs
  · exact div_nonneg (hgd _ _) (by norm_num [max_d])
  · norm_num

theorem spatial_stretch_le_one (gd : ℚ × ℚ → ℚ × ℚ → ℚ) (s t : StayRec) :
    spatial_stretch gd s t ≤ 1 := by
  unfold spatial_stretch
  dsimp only
  split_ifs with h
  · rw [div_le_one (by norm_num [max_d])]
    exact h
  · norm_num

theorem temporal_stretch_nonneg (s t : StayRec) : 0 ≤ temporal_stretch s t := by
  unfold temporal_stretch
  dsimp only
  split_ifs with h
  · exact div_nonneg h.1 (by norm_num [max_t])
  · norm_num

theorem temporal_stretch_le_one (s t : StayRec) : temporal_stretch s t ≤ 1 := by
  unfold temporal_stretch
  dsimp only
  split_ifs with h
  · rw [div_le_one (by norm_num [max_t])]
    exact h.2
  · norm_num

theorem sample_stretch_effort_nonneg (gd : ℚ × ℚ → ℚ × ℚ → ℚ)
    (hgd : ∀ p q, 0 ≤ gd p q) (s t : StayRec) :
    0 ≤ sample_stretch_effort gd s t := by
  unfold sample_stretch_effort
  have h1 := spatial_stretch_nonneg gd hgd s t
  have h2 := temporal_stretch_nonneg s t
  nlinarith

theorem sample_stretch_effort_le_one (gd : ℚ × ℚ → ℚ × ℚ → ℚ) (s t : StayRec) :
    sample_stretch_effort gd s t ≤ 1 := by
  unfold sample_stretch_effort
  have h1 := spatial_stretch_le_one gd s t
  have h2 := temporal_stretch_le_one s t
  nlinarith

theorem writePair_eval {S : Type} [DecidableEq S] (M : S → S → Option ℚ)
    (a b : S) (v : ℚ) (x y : S) :
    writePair M a b v x y =
      if x = b ∧ y = a then some v else if x = a ∧ y = b then some v else M x y := rfl

theorem writePair_symm {S : Type} [DecidableEq S] (M : S → S → Option ℚ)
    (a b : S) (v : ℚ) (hM : ∀ x y, M x y = M y x) (x y : S) :
    writePair M a b v x y = writePair M a b v y x := by
  rw [writePair_eval, writePair_eval]
  by_cases hxb : x = b <;> by_cases hya : y = a <;>
    by_cases hxa : x = a <;> by_cases hyb : y = b <;>
      simp [hxb, hya, hxa, hyb] <;> exact hM _ _

theorem writePair_diag {S : Type} [DecidableEq S] (M : S → S → Option ℚ)
    (a b : S) (v : ℚ) (hab : a ≠ b) (x : S) :
    writePair M a b v x x = M x x := by
  rw [writePair_eval]
  have h1 : ¬(x = b ∧ x = a) := fun hc => hab (hc.2 ▸ hc.1 ▸ rfl)
  have h2 : ¬(x = a ∧ x = b) := fun hc => hab (hc.1 ▸ hc.2 ▸ rfl)
  simp [h1, h2]

theorem writePair_untouched {S : Type} [DecidableEq S] (M : S → S → Option ℚ)
    (a b : S) (v : ℚ) (x y : S) (h1 : (a, b) ≠ (x, y)) (h2 : (a, b) ≠ (y, x)) :
    writePair M a b v x y = M x y := by
  rw [writePair_eval]
  have hx1 : ¬(x = b ∧ y = a) := by
    intro hc; exact h2 (by rw [hc.1, hc.2])
  have hx2 : ¬(x = a ∧ y = b) := by
    intro hc; exact h1 (by rw [hc.1, hc.2])
  simp [hx1, hx2]

theorem writePair_self {S : Type} [DecidableEq S] (M : S → S → Option ℚ)
    (a b : S) (v : ℚ) : writePair M a b v a b = some v := by
  rw [writePair_eval]
  by_cases h : a = b
  · subst h; simp
  · have h1 : ¬(a = b ∧ b = a) := fun hc => h hc.1
    simp [h1]

theorem buildMatrix_symm {S : Type} [DecidableEq S] (gd : ℚ × ℚ → ℚ × ℚ → ℚ)
    (fp : S → List StayRec) (prs : List (S × S)) :
    ∀ M : S → S → Option ℚ, (∀ x y, M x y = M y x) →
      ∀ x y, buildMatrix gd fp prs M x y = buildMatrix gd fp prs M y x := by
  induction prs with
  | nil => intro M hM x y; exact hM x y
  | cons p rest ih =>
    intro M hM x y
    exact ih _ (writePair_symm M p.1 p.2 _ hM) x y

theorem buildMatrix_diag {S : Type} [DecidableEq S] (gd : ℚ × ℚ → ℚ × ℚ → ℚ)
    (fp : S → List StayRec) (prs : List (S × S)) :
    ∀ M : S → S → Option ℚ, (∀ p ∈ prs, p.1 ≠ p.2) →
      ∀ a, buildMatrix gd fp prs M a a = M a a := by
  induction prs with
  | nil => intro M _ a; rfl
  | cons p rest ih =>
    intro M hp a
    have hhead : p.1 ≠ p.2 := hp p (List.mem_cons_self p rest)
    have htail : ∀ q ∈ rest, q.1 ≠ q.2 := fun q hq => hp q (List.mem_cons_of_mem p hq)
    rw [buildMatrix, ih _ htail a, writePair_diag _ _ _ _ hhead]

theorem buildMatrix_untouched {S : Type} [DecidableEq S] (gd : ℚ × ℚ → ℚ × ℚ → ℚ)
    (fp : S → List StayRec) (prs : List (S × S)) :
    ∀ (M : S → S → Option ℚ) (x y : S),
      (∀ q ∈ prs, q ≠ (x, y) ∧ q ≠ (y, x)) →
      buildMatrix gd fp prs M x y = M x y := by
  induction prs with
  | nil => intro M x y _; rfl
  | cons p rest ih =>
    intro M x y hq
    have hhead := hq p (List.mem_cons_self p rest)
    have htail : ∀ q ∈ rest, q ≠ (x, y) ∧ q ≠ (y, x) :=
      fun q hqm => hq q (List.mem_cons_of_mem p hqm)
    rw [buildMatrix, ih _ x y htail,
        writePair_untouched _ _ _ _ _ _ (by simpa using hhead.1) (by simpa using hhead.2)]

theorem buildMatrix_value {S : Type} [DecidableEq S] (gd : ℚ × ℚ → ℚ × ℚ → ℚ)
    (fp : S → List StayRec) (prs : List (S × S)) :
    ∀ M : S → S → Option ℚ,
      prs.Pairwise (fun p q => q ≠ p ∧ q ≠ (p.2, p.1)) →
      ∀ p ∈ prs, buildMatrix gd fp prs M p.1 p.2 = some (gapOf gd (fp p.1) (fp p.2)) := by
  induction prs with
  | nil => intro M _ p hp; simp at hp
  | cons a rest ih =>
    intro M hpw p hp
    have hpw' := List.pairwise_cons.mp hpw
    rcases List.mem_cons.mp hp with h | h
    · subst h
      rw [buildMatrix, buildMatrix_untouched gd fp rest _ p.1 p.2 ?_]
      · exact writePair_self M p.1 p.2 _
      · intro q hq
        have := hpw'.1 q hq
        exact ⟨this.1, fun hc => this.2 (by rw [hc])⟩
    · exact ih _ hpw'.2 p h

theorem mem_combos {S : Type} :
    ∀ (l : List S) (p : S × S), p ∈ combos l → p.1 ∈ l ∧ p.2 ∈ l := by
  intro l
  induction l with
  | nil => intro p hp; simp [combos] at hp
  | cons x xs ih =>
    intro p hp
    rw [combos, List.mem_append] at hp
    rcases hp with h | h
    · rcases List.mem_map.mp h with ⟨y, hy, hxy⟩
      rw [← hxy]
      exact ⟨List.mem_cons_self x xs, List.mem_cons_of_mem x hy⟩
    · have := ih p h
      exact ⟨List.mem_cons_of_mem x this.1, List.mem_cons_of_mem x this.2⟩

theorem combos_fst_ne_snd {S : Type} :
    ∀ l : List S, l.Nodup → ∀ p ∈ combos l, p.1 ≠ p.2 := by
  intro l
  induction l with
  | nil => intro _ p hp; simp [combos] at hp
  | cons x xs ih =>
    intro hnd p hp
    have hx : x ∉ xs := (List.nodup_cons.mp hnd).1
    have hxs : xs.Nodup := (List.nodup_cons.mp hnd).2
    rw [combos, List.mem_append] at hp
    rcases hp with h | h
    · rcases List.mem_map.mp h with ⟨y, hy, hxy⟩
      rw [← hxy]
      intro hc
      have hxy2 : x = y := hc
      exact hx (hxy2 ▸ hy)
    · exact ih hxs p h

theorem combos_pairwise {S : Type} :
    ∀ l : List S, l.Nodup →
      (combos l).Pairwise (fun p q => q ≠ p ∧ q ≠ (p.2, p.1)) := by
  intro l
  induction l with
  | nil => intro _; simp [combos]
  | cons x xs ih =>
    intro hnd
    have hx : x ∉ xs := (List.nodup_cons.mp hnd).1
    have hxs : xs.Nodup := (List.nodup_cons.mp hnd).2
    rw [combos, List.pairwise_append]
    refine ⟨?_, ih hxs, ?_⟩
    · rw [List.pairwise_map]
      refine List.Pairwise.imp_of_mem ?_ hxs
      intro y1 y2 hy1 _ hne
      constructor
      · intro hc
        have h21 : y2 = y1 := congrArg Prod.snd hc
        exact hne h21.symm
      · intro hc
        have hx1 : x = y1 := congrArg Prod.fst hc
        exact hx (hx1 ▸ hy1)
    · intro p hp q hq
      rcases List.mem_map.mp hp with ⟨y, hy, hxy⟩
      have hq12 := mem_combos xs q hq
      constructor
      · intro hc
        have h1 : q.1 ∈ xs := hq12.1
        rw [hc, ← hxy] at h1
        exact hx h1
      · intro hc
        have h2 : q.2 ∈ xs := hq12.2
        rw [hc, ← hxy] at h2
        exact hx h2

end KGap

namespace STC

theorem segStep_cur_ne_nil (gd : ℚ × ℚ → ℚ × ℚ → ℚ) (d t : ℚ) (σ : SegState)
    (row : Entry) (h : σ.cur ≠ []) : (segStep gd d t σ row).cur ≠ [] := by
  unfold segStep
  cases hp : σ.ploc with
  | none =>
    dsimp only
    split_ifs with h1
    · simp
    · exact h
  | some p =>
    dsimp only
    split_ifs <;> simp

theorem foldl_segStep_cur_ne_nil (gd : ℚ × ℚ → ℚ × ℚ → ℚ) (d t : ℚ) :
    ∀ (rest : List Entry) (σ : SegState), σ.cur ≠ [] →
      (rest.foldl (segStep gd d t) σ).cur ≠ [] := by
  intro rest
  induction rest with
  | nil => intro σ h; exact h
  | cons s rest ih =>
    intro σ h
    exact ih _ (segStep_cur_ne_nil gd d t σ s h)

theorem foldl_segStep_all_in_range (gd : ℚ × ℚ → ℚ × ℚ → ℚ) (d t : ℚ) :
    ∀ (rest : List Entry) (F : List ClusterRow) (cur : List Entry),
      allInRange gd d cur rest = true →
      rest.foldl (segStep gd d t) ⟨F, cur, none⟩ = ⟨F, cur ++ rest, none⟩ := by
  intro rest
  induction rest with
  | nil => intro F cur _; simp
  | cons s rest ih =>
    intro F cur h
    rw [allInRange, Bool.and_eq_true, decide_eq_true_eq] at h
    rw [List.foldl_cons]
    have hstep : segStep gd d t ⟨F, cur, none⟩ s = ⟨F, cur ++ [s], none⟩ := by
      unfold segStep
      rw [if_pos h.1]
    rw [hstep, ih F (cur ++ [s]) h.2, List.append_assoc]
    rfl


end STC

namespace DB

theorem minByKey_mem (f : ℚ × ℚ → ℚ) :
    ∀ (xs : List (ℚ × ℚ)) (x : ℚ × ℚ), minByKey f x xs ∈ x :: xs := by
  intro xs
  induction xs with
  | nil => intro x; simp [minByKey]
  | cons y ys ih =>
    intro x
    rw [minByKey, List.foldl_cons]
    by_cases hc : f y < f x
    · rw [if_pos hc]
      have h := ih y
      rw [minByKey] at h
      rcases List.mem_cons.mp h with h1 | h1
      · rw [h1]; simp
      · simp [h1]
    · rw [if_neg hc]
      have h := ih x
      rw [minByKey] at h
      rcases List.mem_cons.mp h with h1 | h1
      · rw [h1]; simp
      · simp [h1]

theorem minByKey_le (f : ℚ × ℚ → ℚ) :
    ∀ (xs : List (ℚ × ℚ)) (x : ℚ × ℚ), ∀ p ∈ x :: xs,
      f (minByKey f x xs) ≤ f p := by
  intro xs
  induction xs with
  | nil =>
    intro x p hp
    rw [List.mem_singleton] at hp
    subst hp
    simp [minByKey]
  | cons y ys ih =>
    intro x p hp
    rw [minByKey, List.foldl_cons]
    have hacc_le_x : f (if f y < f x then y else x) ≤ f x := by
      split_ifs with hc
      · exact le_of_lt hc
      · exact le_refl _
    have hacc_le_y : f (if f y < f x then y else x) ≤ f y := by
      split_ifs with hc
      · exact le_refl _
      · exact le_of_not_lt hc
    have hres := ih (if f y < f x then y else x)
    rw [minByKey] at hres
    have hres_acc := hres _ (List.mem_cons_self _ _)
    rcases List.mem_cons.mp hp with h1 | h1
    · subst h1; exact le_trans hres_acc hacc_le_x
    · rcases List.mem_cons.mp h1 with h2 | h2
      · subst h2; exact le_trans hres_acc hacc_le_y
      · exact hres p (List.mem_cons_of_mem _ h2)

theorem get_centroid_mem (gc : ℚ × ℚ → ℚ × ℚ → ℚ) (cluster : List (ℚ × ℚ))
    (h : cluster ≠ []) : get_centroid gc cluster ∈ cluster := by
  cases cluster with
  | nil => exact absurd rfl h
  | cons x xs => exact minByKey_mem _ xs x

theorem get_centroid_min (gc : ℚ × ℚ → ℚ × ℚ → ℚ) (cluster : List (ℚ × ℚ))
    (p : ℚ × ℚ) (hp : p ∈ cluster) :
    gc (get_centroid gc cluster) (centroidOf cluster) ≤ gc p (centroidOf cluster) := by
  cases cluster with
  | nil => simp at hp
  | cons x xs => exact minByKey_le (fun point => gc point (centroidOf (x :: xs))) xs x p hp

theorem mem_clusterOf_mem_coords (coords : List (ℚ × ℚ)) (labels : List ℕ)
    (n : ℕ) (p : ℚ × ℚ) (hp : p ∈ clusterOf coords labels n) : p ∈ coords := by
  rw [clusterOf] at hp
  rcases List.mem_map.mp hp with ⟨pl, hpl, hfst⟩
  obtain ⟨q1, q2⟩ := pl
  have hz := List.mem_of_mem_filter hpl
  have hmem := List.of_mem_zip hz
  rw [← hfst]
  exact hmem.1

theorem getD_mem_clusterOf :
    ∀ (coords : List (ℚ × ℚ)) (labels : List ℕ) (i : ℕ),
      i < coords.length → i < labels.length →
      coords.getD i (0, 0) ∈ clusterOf coords labels (labels.getD i 0) := by
  intro coords
  induction coords with
  | nil => intro labels i hi _; simp at hi
  | cons c cs ih =>
    intro labels i hi hil
    cases labels with
    | nil => simp at hil
    | cons l ls =>
      cases i with
      | zero =>
        simp only [List.getD_cons_zero]
        rw [clusterOf]
        have : (c, l) ∈ (((c, l) :: cs.zip ls).filter (fun pl => pl.2 == l)) := by
          rw [List.mem_filter]
          exact ⟨List.mem_cons_self _ _, by simp⟩
        rw [List.zip_cons_cons]
        exact List.mem_map.mpr ⟨(c, l), this, rfl⟩
      | succ j =>
        simp only [List.getD_cons_succ]
        have hj : j < cs.length := Nat.lt_of_succ_lt_succ hi
        have hjl : j < ls.length := Nat.lt_of_succ_lt_succ hil
        have hmem := ih ls j hj hjl
        rw [clusterOf] at hmem ⊢
        rw [List.zip_cons_cons, List.filter_cons]
        split_ifs with hc
        · rw [List.map_cons]
          exact List.mem_cons_of_mem _ hmem
        · exact hmem

end DB

/-- C1: for non-empty fingerprints `f1`, `f2`, `k_gap(f1,f2)` equals the
sum, over every record `s` of `f1`, of the minimum over all records `t`
of `f2` of `sample_stretch_effort(s,t) = 0.5*spatial_stretch(s,t) +
0.5*temporal_stretch(s,t)`, divided by the length of `f1`. -/
theorem c1_k_gap_eq_mean_min_effort (gd : ℚ × ℚ → ℚ × ℚ → ℚ)
    (f1 f2 : List KGap.StayRec) (h1 : f1 ≠ []) (h2 : f2 ≠ []) :
    KGap.k_gap gd f1 f2 =
      (f1.map (fun s => KGap.finsetMin f2.toFinset
        (fun t => 0.5 * KGap.spatial_stretch gd s t +
                  0.5 * KGap.temporal_stretch s t))).sum / (f1.length : ℚ) := by
  have hfun : (fun s => KGap.listMin (f2.map
        (fun t => KGap.sample_stretch_effort gd s t))) =
      (fun s => KGap.finsetMin f2.toFinset
        (fun t => 0.5 * KGap.spatial_stretch gd s t +
                  0.5 * KGap.temporal_stretch s t)) :=
    funext (fun s => KGap.listMin_map_eq_finsetMin _ f2 h2)
  unfold KGap.k_gap
  rw [hfun]

/-- Witness for C1 at two concrete one-record fingerprints. -/
theorem c1_witness :
    KGap.k_gap gdZero [⟨0, 0, 0, 3600⟩] [⟨0, 0, 0, 3600⟩] =
      (([⟨0, 0, 0, 3600⟩] : List KGap.StayRec).map (fun s =>
        KGap.finsetMin ([⟨0, 0, 0, 3600⟩] : List KGap.StayRec).toFinset
          (fun t => 0.5 * KGap.spatial_stretch gdZero s t +
                    0.5 * KGap.temporal_stretch s t))).sum /
        ((([⟨0, 0, 0, 3600⟩] : List KGap.StayRec).length : ℚ)) :=
  c1_k_gap_eq_mean_min_effort gdZero _ _ (List.cons_ne_nil _ _) (List.cons_ne_nil _ _)

/-- C2: `temporal_stretch` returns `overlap/(max_t*60)` when
`0 ≤ overlap ≤ max_t*60` and `1` otherwise; and for two one-record
fingerprints with identical coordinates whose window overlap equals the
full window `max_t*60`, `k_gap` is exactly `1/2`. -/
theorem c2_temporal_stretch_and_half_scenario (gd : ℚ × ℚ → ℚ × ℚ → ℚ)
    (r1 r2 : KGap.StayRec)
    (hlat : r1.lat = r2.lat) (hlon : r1.lon = r2.lon)
    (hgd0 : ∀ p, gd p p = 0)
    (hov : min r1.stop r2.stop - max r1.start r2.start = KGap.max_t * 60) :
    (∀ a b : KGap.StayRec,
      KGap.temporal_stretch a b =
        if 0 ≤ min a.stop b.stop - max a.start b.start ∧
           min a.stop b.stop - max a.start b.start ≤ KGap.max_t * 60
        then (min a.stop b.stop - max a.start b.start) / (KGap.max_t * 60)
        else 1) ∧
    KGap.k_gap gd [r1] [r2] = 1 / 2 := by
  constructor
  · intro a b; rfl
  · have hd : gd (r1.lat, r1.lon) (r2.lat, r2.lon) = 0 := by
      rw [hlat, hlon]; exact hgd0 _
    simp [KGap.k_gap, KGap.listMin, KGap.sample_stretch_effort,
          KGap.spatial_stretch, KGap.temporal_stretch, hd, hov,
          KGap.max_d, KGap.max_t]
    norm_num

/-- Witness for C2 at a concrete record. -/
theorem c2_witness :
    KGap.k_gap gdZero [⟨0, 0, 0, 3600⟩] [⟨0, 0, 0, 3600⟩] = 1 / 2 :=
  (c2_temporal_stretch_and_half_scenario gdZero ⟨0, 0, 0, 3600⟩ ⟨0, 0, 0, 3600⟩
    rfl rfl (fun _ => rfl) (by norm_num [KGap.max_t])).2

/-- C3: the in-progress cluster of the segmenter at end of input is never
emitted — the output is exactly the list of clusters emitted during the
forward pass while the live buffer (always non-empty) is silently
dropped; in particular a one-sample trace yields an empty output. -/
theorem c3_trailing_cluster_never_flushed (gd : ℚ × ℚ → ℚ × ℚ → ℚ)
    (d t : ℚ) (first : STC.Entry) (rest : List STC.Entry) :
    STC.create_place_clusters gd d t (first :: rest) =
      some (STC.segRun gd d t first rest).finals ∧
    (STC.segRun gd d t first rest).cur ≠ [] ∧
    STC.create_place_clusters gd d t [first] = some [] := by
  refine ⟨rfl, ?_, rfl⟩
  exact STC.foldl_segStep_cur_ne_nil gd d t rest _ (by simp)

/-- Counterexample to C4: three samples at identical coordinates with
timestamps 0/10/20 s, `distance_threshold = 50` m and
`time_threshold = 10` s have total duration 20 s > 10 s, yet the
segmenter emits no cluster at all (the claim predicts exactly one). -/
theorem c4_counterexample :
    STC.create_place_clusters gdZero 50 10
      [⟨(0, 0), 0⟩, ⟨(0, 0), 10⟩, ⟨(0, 0), 20⟩] = some [] ∧
    STC.time_duration [⟨(0, 0), 0⟩, ⟨(0, 0), 10⟩, ⟨(0, 0), 20⟩] = 20 := by
  refine ⟨?_, by norm_num [STC.time_duration]⟩
  norm_num [STC.create_place_clusters, STC.segRun, STC.segStep,
            STC.dist_cluster_new_loc, STC.get_centroid, gdZero]

/-- C4 (amended): a trace in which every sample lies within
`distance_threshold` of the running centroid of the cluster built so far
emits no CandidateCluster at all, whatever its total duration — the
whole trace stays in the in-progress buffer, which is dropped at end of
input. -/
theorem c4_in_range_trace_emits_none (gd : ℚ × ℚ → ℚ × ℚ → ℚ) (d t : ℚ)
    (first : STC.Entry) (rest : List STC.Entry)
    (h : STC.allInRange gd d [first] rest = true) :
    STC.create_place_clusters gd d t (first :: rest) = some [] := by
  unfold STC.create_place_clusters
  dsimp only
  unfold STC.segRun
  rw [STC.foldl_segStep_all_in_range gd d t rest [] [first] h]

/-- Witness for amended C4 at the concrete 0/10/20 s trace. -/
theorem c4_witness :
    STC.create_place_clusters gdZero 50 10
      [⟨(0, 0), 0⟩, ⟨(0, 0), 10⟩, ⟨(0, 0), 20⟩] = some [] :=
  c4_in_range_trace_emits_none gdZero 50 10 ⟨(0, 0), 0⟩
    [⟨(0, 0), 10⟩, ⟨(0, 0), 20⟩]
    (by norm_num [STC.allInRange, STC.dist_cluster_new_loc,
                  STC.get_centroid, gdZero])

/-- Counterexample to C5: on the trace `[A, A, B, A, A]` (with `B` beyond
the distance threshold and occurring once) the segmenter returns zero
clusters — not one cluster of the A-samples — because the unsplit
cluster is still in the buffer at end of input and is dropped. -/
theorem c5_counterexample :
    (STC.create_place_clusters gdFar 50 10
      [⟨(0, 0), 0⟩, ⟨(0, 0), 10⟩, ⟨(1, 1), 20⟩, ⟨(0, 0), 30⟩, ⟨(0, 0), 40⟩]).map
        List.length = some 0 := by
  norm_num [STC.create_place_clusters, STC.segRun, STC.segStep,
            STC.dist_cluster_new_loc, STC.get_centroid, STC.time_duration, gdFar,
            Prod.ext_iff]

/-- C5 (amended): a single isolated out-of-range sample immediately
followed by an in-range sample does not split the current cluster: the
two steps leave the cluster buffer extended by the in-range sample with
the stray sample discarded and nothing emitted; on the concrete trace
`[A, A, B, A, A]` the final buffer holds exactly the four A-samples,
nothing was emitted, and the returned output is empty because the
trailing buffer is dropped at end of input. -/
theorem c5_lookahead_absorption :
    (∀ (gd : ℚ × ℚ → ℚ × ℚ → ℚ) (d t : ℚ) (σ : STC.SegState)
       (b a : STC.Entry),
      σ.ploc = none →
      ¬ STC.dist_cluster_new_loc gd σ.cur b < d →
      STC.dist_cluster_new_loc gd σ.cur a < d →
      STC.segStep gd d t (STC.segStep gd d t σ b) a =
        ⟨σ.finals, σ.cur ++ [a], none⟩) ∧
    STC.segRun gdFar 50 10 ⟨(0, 0), 0⟩
      [⟨(0, 0), 10⟩, ⟨(1, 1), 20⟩, ⟨(0, 0), 30⟩, ⟨(0, 0), 40⟩] =
      ⟨[], [⟨(0, 0), 0⟩, ⟨(0, 0), 10⟩, ⟨(0, 0), 30⟩, ⟨(0, 0), 40⟩], none⟩ ∧
    STC.create_place_clusters gdFar 50 10
      [⟨(0, 0), 0⟩, ⟨(0, 0), 10⟩, ⟨(1, 1), 20⟩, ⟨(0, 0), 30⟩, ⟨(0, 0), 40⟩] =
      some [] := by
  refine ⟨?_,
    by norm_num [STC.segRun, STC.segStep, STC.dist_cluster_new_loc,
                 STC.get_centroid, STC.time_duration, gdFar, Prod.ext_iff],
    by norm_num [STC.create_place_clusters, STC.segRun, STC.segStep,
                 STC.dist_cluster_new_loc, STC.get_centroid, STC.time_duration,
                 gdFar, Prod.ext_iff]⟩
  intro gd d t σ b a hploc hb ha
  have h1 : STC.segStep gd d t σ b = { σ with ploc := some b } := by
    unfold STC.segStep
    rw [if_neg hb, hploc]
  rw [h1]
  unfold STC.segStep
  dsimp only
  rw [if_pos ha]

/-- Witness for amended C5: the two-step absorption applied at a
concrete state and pair of samples. -/
theorem c5_witness :
    STC.segStep gdFar 50 10
      (STC.segStep gdFar 50 10 ⟨[], [⟨(0, 0), 0⟩], none⟩ ⟨(1, 1), 20⟩)
      ⟨(0, 0), 30⟩ =
      ⟨[], [⟨(0, 0), 0⟩, ⟨(0, 0), 30⟩], none⟩ :=
  c5_lookahead_absorption.1 gdFar 50 10 ⟨[], [⟨(0, 0), 0⟩], none⟩
    ⟨(1, 1), 20⟩ ⟨(0, 0), 30⟩ rfl
    (by norm_num [STC.dist_cluster_new_loc, STC.get_centroid, gdFar, Prod.ext_iff])
    (by norm_num [STC.dist_cluster_new_loc, STC.get_centroid, gdFar, Prod.ext_iff])

/-- C6: for every distinct participant list, the similarity matrix of
the main loop holds the same value at `[a,b]` and `[b,a]` — for each
generated pair the single value computed with the shorter fingerprint
as the outer loop is written into both cells — and every diagonal cell
is left unset. -/
theorem c6_similarity_matrix_symmetric_diag_unset {S : Type} [DecidableEq S]
    (gd : ℚ × ℚ → ℚ × ℚ → ℚ) (fp : S → List KGap.StayRec)
    (parts : List S) (hnd : parts.Nodup) :
    (∀ x y, KGap.similarity_matrix gd fp parts x y =
            KGap.similarity_matrix gd fp parts y x) ∧
    (∀ a, KGap.similarity_matrix gd fp parts a a = none) ∧
    (∀ p ∈ KGap.combos parts,
      KGap.similarity_matrix gd fp parts p.1 p.2 =
        some (KGap.gapOf gd (fp p.1) (fp p.2))) := by
  refine ⟨?_, ?_, ?_⟩
  · exact KGap.buildMatrix_symm gd fp (KGap.combos parts) _ (fun x y => rfl)
  · intro a
    exact KGap.buildMatrix_diag gd fp (KGap.combos parts) _
      (KGap.combos_fst_ne_snd parts hnd) a
  · intro p hp
    exact KGap.buildMatrix_value gd fp (KGap.combos parts) _
      (KGap.combos_pairwise parts hnd) p hp

/-- Witness for C6 on three concrete participants. -/
theorem c6_witness :
    KGap.similarity_matrix gdZero (fun _ => ([] : List KGap.StayRec))
        ([0, 1, 2] : List ℕ) 0 1 =
      KGap.similarity_matrix gdZero (fun _ => ([] : List KGap.StayRec))
        ([0, 1, 2] : List ℕ) 1 0 ∧
    KGap.similarity_matrix gdZero (fun _ => ([] : List KGap.StayRec))
        ([0, 1, 2] : List ℕ) 0 0 = none := by
  have h := c6_similarity_matrix_symmetric_diag_unset gdZero
    (fun _ => ([] : List KGap.StayRec)) ([0, 1, 2] : List ℕ) (by decide)
  exact ⟨h.1 0 1, h.2.1 0⟩

/-- C7: the consolidation group of any input point is non-empty, its
canonical representative is one of the member points of the group (hence one
of the input coordinates — never a synthetic blend), and it minimizes
the great-circle distance to the own centroid of the group among all
members. -/
theorem c7_representative_is_central_member (gc : ℚ × ℚ → ℚ × ℚ → ℚ)
    (coords : List (ℚ × ℚ)) (labels : List ℕ) (i : ℕ)
    (hlen : labels.length = coords.length) (hi : i < coords.length) :
    DB.get_centroid gc (DB.clusterOf coords labels (labels.getD i 0)) ∈
      DB.clusterOf coords labels (labels.getD i 0) ∧
    (∀ p ∈ DB.clusterOf coords labels (labels.getD i 0), p ∈ coords) ∧
    (∀ p ∈ DB.clusterOf coords labels (labels.getD i 0),
      gc (DB.get_centroid gc (DB.clusterOf coords labels (labels.getD i 0)))
         (DB.centroidOf (DB.clusterOf coords labels (labels.getD i 0))) ≤
      gc p (DB.centroidOf (DB.clusterOf coords labels (labels.getD i 0)))) := by
  have hmem := DB.getD_mem_clusterOf coords labels i hi (hlen.symm ▸ hi)
  have hne : DB.clusterOf coords labels (labels.getD i 0) ≠ [] :=
    List.ne_nil_of_mem hmem
  exact ⟨DB.get_centroid_mem gc _ hne,
         fun p hp => DB.mem_clusterOf_mem_coords coords labels _ p hp,
         fun p hp => DB.get_centroid_min gc _ p hp⟩

/-- Witness for C7 at two concrete points in one group. -/
theorem c7_witness :
    DB.get_centroid gdZero
        (DB.clusterOf [((0 : ℚ), (0 : ℚ)), (3, 3)] [0, 0]
          (([0, 0] : List ℕ).getD 0 0)) ∈
      DB.clusterOf [((0 : ℚ), (0 : ℚ)), (3, 3)] [0, 0]
        (([0, 0] : List ℕ).getD 0 0) :=
  (c7_representative_is_central_member gdZero [((0 : ℚ), (0 : ℚ)), (3, 3)]
    [0, 0] 0 (by decide) (by decide)).1

/-- Counterexample to C8: with `temporal_threshold = 60` (one of the
parameter sets of the source, whose upstream segmentation time threshold is
`60 * 60 = 3600` s), a `start_time` of `100` is floored by the code to
`100 // 60 * 60 = 60`, which is not a multiple of the upstream
`time_threshold` in seconds, and differs from the claimed
`100 // 3600 * 3600 = 0`. -/
theorem c8_counterexample :
    Gen.floorToGrid 100 60 = 60 ∧
    ¬ (Gen.time_threshold_seconds 60 ∣ Gen.floorToGrid 100 60) ∧
    Gen.floorToGrid 100 (Gen.time_threshold_seconds 60) = 0 := by
  decide

/-- C8 (amended): both floored times are multiples of the raw
`temporal_threshold` parameter itself (the minutes-valued number, equal
to the upstream `time_threshold` in seconds divided by 60), and the
flooring maps `t` to the greatest such multiple that is `≤ t`. -/
theorem c8_floor_by_raw_temporal_threshold (x th : ℤ) (h : 0 < th) :
    th ∣ Gen.floorToGrid x th ∧ Gen.floorToGrid x th ≤ x ∧
    x < Gen.floorToGrid x th + th ∧
    Gen.time_threshold_seconds th / 60 = th := by
  have hfm := Int.fdiv_add_fmod x th
  have hnn := Int.fmod_nonneg' x h
  have hlt := Int.fmod_lt_of_pos x h
  have hc : x.fdiv th * th = th * x.fdiv th := mul_comm _ _
  refine ⟨?_, ?_, ?_, ?_⟩
  · show th ∣ x.fdiv th * th
    exact dvd_mul_left th (x.fdiv th)
  · show x.fdiv th * th ≤ x
    linarith
  · show x < x.fdiv th * th + th
    linarith
  · show th * 60 / 60 = th
    omega

/-- Witness for amended C8 at `x = 100`, `th = 60`. -/
theorem c8_witness :
    (60 : ℤ) ∣ Gen.floorToGrid 100 60 ∧ Gen.floorToGrid 100 60 ≤ 100 ∧
    (100 : ℤ) < Gen.floorToGrid 100 60 + 60 ∧
    Gen.time_threshold_seconds 60 / 60 = 60 :=
  c8_floor_by_raw_temporal_threshold 100 60 (by decide)

/-- Counterexample to C9: on a zero-sample trace the segmenter does not
complete normally — `data_places.iloc[0]` raises, modelled as `none` —
whereas the claim asserts that 0-sample traces also produce an empty
stay-record sequence without error. -/
theorem c9_counterexample :
    STC.create_place_clusters gdZero 50 10 ([] : List STC.Entry) = none := rfl

/-- C9 (amended): a one-sample trace completes and produces an empty
output sequence; a zero-sample trace makes the segmenter fail (an index
error on the first row, modelled as `none`) — though the per-subject grouping
of the pipeline never produces an empty trace. -/
theorem c9_degenerate_trace (gd : ℚ × ℚ → ℚ × ℚ → ℚ) (d t : ℚ)
    (e : STC.Entry) :
    STC.create_place_clusters gd d t [e] = some [] ∧
    STC.create_place_clusters gd d t ([] : List STC.Entry) = none :=
  ⟨rfl, rfl⟩

/-- C10: with a non-negative distance primitive and non-empty
fingerprints, `k_gap` lies in `[0, 1]`. -/
theorem c10_k_gap_unit_interval (gd : ℚ × ℚ → ℚ × ℚ → ℚ)
    (hgd : ∀ p q, 0 ≤ gd p q) (f1 f2 : List KGap.StayRec)
    (h1 : f1 ≠ []) (h2 : f2 ≠ []) :
    0 ≤ KGap.k_gap gd f1 f2 ∧ KGap.k_gap gd f1 f2 ≤ 1 := by
  have hlen : (0 : ℚ) < (f1.length : ℚ) := by
    exact_mod_cast List.length_pos.mpr h1
  have hbounds : ∀ q ∈ f1.map (fun s => KGap.listMin (f2.map
      (fun t => KGap.sample_stretch_effort gd s t))), 0 ≤ q ∧ q ≤ 1 := by
    intro q hq
    rcases List.mem_map.mp hq with ⟨s, _, hqe⟩
    have hmapne : f2.map (fun t => KGap.sample_stretch_effort gd s t) ≠ [] := by
      simpa using h2
    have hm := KGap.listMin_mem _ hmapne
    rcases List.mem_map.mp hm with ⟨t2, _, hte⟩
    rw [← hqe]
    constructor
    · rw [← hte]
      exact KGap.sample_stretch_effort_nonneg gd hgd s t2
    · rw [← hte]
      exact KGap.sample_stretch_effort_le_one gd s t2
  have hsum0 : 0 ≤ (f1.map (fun s => KGap.listMin (f2.map
      (fun t => KGap.sample_stretch_effort gd s t)))).sum :=
    List.sum_nonneg (fun q hq => (hbounds q hq).1)
  have hsum1 : (f1.map (fun s => KGap.listMin (f2.map
      (fun t => KGap.sample_stretch_effort gd s t)))).sum ≤ (f1.length : ℚ) := by
    have := List.sum_le_card_nsmul (f1.map (fun s => KGap.listMin (f2.map
      (fun t => KGap.sample_stretch_effort gd s t)))) 1
      (fun q hq => (hbounds q hq).2)
    simpa [nsmul_eq_mul] using this
  unfold KGap.k_gap
  constructor
  · exact div_nonneg hsum0 (le_of_lt hlen)
  · rw [div_le_one hlen]
    exact hsum1

/-- Witness for C10 on concrete one-record fingerprints. -/
theorem c10_witness :
    0 ≤ KGap.k_gap gdZero [⟨0, 0, 0, 3600⟩] [⟨0, 0, 0, 3600⟩] ∧
    KGap.k_gap gdZero [⟨0, 0, 0, 3600⟩] [⟨0, 0, 0, 3600⟩] ≤ 1 :=
  c10_k_gap_unit_interval gdZero (fun _ _ => le_refl 0) _ _
    (List.cons_ne_nil _ _) (List.cons_ne_nil _ _)
